import Mathlib

/-
Shallow embedding of the statistics core of `ffmpeg_bitrate_stats/bitrate_stats.py`.

Modelling conventions:
* Python floats are modelled as exact rationals (`ℚ`).
* The sentinel `"NaN"` (and float `nan` obtained from it via `float(...)`) is
  modelled as `none` in `Option ℚ`; NaN-propagating arithmetic and the
  always-false NaN comparisons are modelled by the `addN`/`subN`/`ltN`/`gtN`
  helpers below.
* A Python `ZeroDivisionError` (raised by `x / 0.0` and `x / 0`) and the
  `ValueError` of `max`/`min` on an empty sequence are modelled with `Except`.
-/

namespace BitrateStats

inductive StreamType
  | audio
  | video
  deriving DecidableEq, Repr

inductive Aggregation
  | time
  | gop
  deriving DecidableEq, Repr

/-- Frame type of a packet: `"I"` iff the probe flags equal `"K_"`. -/
inductive FrameType
  | I
  | NonI
  deriving DecidableEq, Repr

/-- One packet descriptor as parsed from the probe JSON (`info` in
`_calculate_frame_sizes`): a flags string, optional `pts_time`, optional
`duration_time` (absent key modelled as `none`) and a byte size. -/
structure RawPacket where
  flags : String
  pts_time : Option ℚ
  duration_time : Option ℚ
  size : ℕ
  deriving DecidableEq, Repr

/-- The `FrameEntry` dict of the source: `n`, `frame_type`, `pts`, `size`,
`duration`, with `"NaN"` modelled as `none`. -/
structure FrameEntry where
  n : ℕ
  frame_type : FrameType
  pts : Option ℚ
  size : ℕ
  duration : Option ℚ
  deriving DecidableEq, Repr

/-- Python exceptions that the modelled code can raise. -/
inductive PyErr
  | zeroDivision
  | emptySequence
  deriving DecidableEq, Repr

/-! NaN-aware float arithmetic (`none` = NaN). -/

/-- Addition `a + b` with NaN propagation. -/
def addN : Option ℚ → Option ℚ → Option ℚ
  | some a, some b => some (a + b)
  | _, _ => none

/-- Subtraction `a - b` with NaN propagation. -/
def subN : Option ℚ → Option ℚ → Option ℚ
  | some a, some b => some (a - b)
  | _, _ => none

/-- Comparison `x < c` where `x` may be NaN: any comparison with NaN is false. -/
def ltN (x : Option ℚ) (c : ℚ) : Bool :=
  match x with
  | some a => decide (a < c)
  | none => false

/-- Comparison `y > cur` where either side may be NaN (used by Python `max`). -/
def gtN : Option ℚ → Option ℚ → Bool
  | some y, some cur => decide (cur < y)
  | _, _ => false

/-- Comparison `y < cur` where either side may be NaN (used by Python `min`). -/
def ltPair : Option ℚ → Option ℚ → Bool
  | some y, some cur => decide (y < cur)
  | _, _ => false

/-- Sum of a list of floats with NaN propagation. -/
def sumN : List (Option ℚ) → Option ℚ
  | [] => some 0
  | x :: xs => addN x (sumN xs)

/-- NumPy mean: sum divided by length, NaN-propagating (NaN on the empty list). -/
def npMean (l : List (Option ℚ)) : Option ℚ :=
  if l.length = 0 then none
  else (sumN l).map fun s => s / (l.length : ℚ)

/-! Python `round(x, n)`: round half to even at `n` decimal digits. -/

/-- Round a rational to the nearest integer, ties to even. -/
def rhe (x : ℚ) : ℤ :=
  let f := ⌊x⌋
  if x - (f : ℚ) < 1 / 2 then f
  else if 1 / 2 < x - (f : ℚ) then f + 1
  else if f % 2 = 0 then f else f + 1

/-- Python `round(x, n)` for non-negative `n`. -/
def pyRound (x : ℚ) (n : ℕ) : ℚ :=
  ((rhe (x * 10 ^ n) : ℚ)) / 10 ^ n

/-! The duration-repair pass (`_fix_durations`, lines 251-270). -/

/-- The loop of `_fix_durations`: walk over consecutive pairs, threading the
`last_duration` variable; a pair with a missing pts is skipped (`continue`),
otherwise record `i` gets `pts[i+1] - pts[i]` (also when negative). -/
def fixGo (last : Option ℚ) : List FrameEntry → List FrameEntry × Option ℚ
  | [] => ([], last)
  | [f] => ([f], last)
  | f :: g :: rest =>
    match f.pts, g.pts with
    | some c, some nx =>
      let r := fixGo (some (nx - c)) (g :: rest)
      ({ f with duration := some (nx - c) } :: r.1, r.2)
    | _, _ =>
      let r := fixGo last (g :: rest)
      (f :: r.1, r.2)

/-- Model of `ret[-1]["duration"] = last_duration`: overwrite the last
record's duration. -/
def setLastDuration : List FrameEntry → ℚ → List FrameEntry
  | [], _ => []
  | [f], d => [{ f with duration := some d }]
  | f :: g :: rest, d => f :: setLastDuration (g :: rest) d

/-- Model of `_fix_durations`: run the pairwise loop, then, if any delta was computed,
copy the most recent delta onto the last record. -/
def fix_durations (ret : List FrameEntry) : List FrameEntry :=
  match fixGo none ret with
  | (l, none) => l
  | (l, some d) => setLastDuration l d

/-! `_calculate_frame_sizes` (lines 210-249), from the parsed packet list on. -/

/-- Model of `default_duration`: the `duration_time` of the first packet carrying one
(`"NaN"`, i.e. `none`, when no packet has the key). -/
def default_duration (info : List RawPacket) : Option ℚ :=
  (info.filterMap RawPacket.duration_time).head?

/-- The packet-to-frame loop of `_calculate_frame_sizes`: 1-based index,
`"I"` frame type iff `flags == "K_"`, pts as given, duration falling back to
`default_duration`. -/
def mkFrames (dd : Option ℚ) : ℕ → List RawPacket → List FrameEntry
  | _, [] => []
  | idx, p :: ps =>
    { n := idx
      frame_type := if p.flags = "K_" then FrameType.I else FrameType.NonI
      pts := p.pts_time
      size := p.size
      duration := p.duration_time.orElse fun _ => dd } :: mkFrames dd (idx + 1) ps

/-- Model of `_calculate_frame_sizes`: build the frame entries; the pts-delta repair
`_fix_durations` runs only when `default_duration == "NaN"`. -/
def calc_frame_sizes (info : List RawPacket) : List FrameEntry :=
  let ret := mkFrames (default_duration info) 1 info
  if default_duration info = none then fix_durations ret else ret

/-- Model of `_calculate_duration` (lines 272-282): sum of the non-`"NaN"` durations,
rounded via `round(..., 2)`. -/
def calc_duration (frames : List FrameEntry) : ℚ :=
  pyRound ((frames.filterMap FrameEntry.duration).sum) 2

/-- Total byte size of a list of frames. -/
def sizeSum (fl : List FrameEntry) : ℕ := (fl.map FrameEntry.size).sum

/-- Sum of the defined durations of a list of frames. -/
def durSum (fl : List FrameEntry) : ℚ := (fl.filterMap FrameEntry.duration).sum

/-! `_collect_chunks` (lines 294-342). -/

/-- GOP-mode loop: non-key frames accumulate into the current chunk; a key
frame closes the current chunk (when non-empty) and starts a new one; the final
chunk is flushed unconditionally. -/
def gopGo (chunks : List (List FrameEntry)) (curr : List FrameEntry) :
    List FrameEntry → List (List FrameEntry)
  | [] => chunks ++ [curr]
  | f :: rest =>
    match f.frame_type with
    | FrameType.NonI => gopGo chunks (curr ++ [f]) rest
    | FrameType.I => gopGo (if curr.isEmpty then chunks else chunks ++ [curr]) [f] rest

/-- Time-mode loop: while `agg_time < chunk_size` the frame joins the current
chunk and its duration (`float(...)`, NaN-propagating) is added to `agg_time`;
otherwise the current chunk is closed (when non-empty) and the frame starts a
new chunk with `agg_time` reset to its own duration; the final chunk is flushed
unconditionally. -/
def timeGo (cs : ℚ) (chunks : List (List FrameEntry)) (curr : List FrameEntry)
    (aggTime : Option ℚ) : List FrameEntry → List (List FrameEntry)
  | [] => chunks ++ [curr]
  | f :: rest =>
    if ltN aggTime cs then timeGo cs chunks (curr ++ [f]) (addN aggTime f.duration) rest
    else timeGo cs (if curr.isEmpty then chunks else chunks ++ [curr]) [f] f.duration rest

/-- The chunk partition produced by `_collect_chunks` for the given mode. -/
def chunksOf (agg : Aggregation) (cs : ℚ) (frames : List FrameEntry) :
    List (List FrameEntry) :=
  match agg with
  | Aggregation.gop => gopGo [] [] frames
  | Aggregation.time => timeGo cs [] [] (some 0) frames

/-- Model of `_bitrate_for_frame_list` (lines 344-361): NaN for fewer than 2 frames;
otherwise `((Σ size * 8) / 1000) / (pts[last] - pts[first])`, NaN when either
endpoint pts is missing, and a `ZeroDivisionError` when the pts delta is 0. -/
def bitrate_for_frame_list (fl : List FrameEntry) : Except PyErr (Option ℚ) :=
  if fl.length < 2 then Except.ok none
  else
    match fl.getLast?.bind FrameEntry.pts, fl.head?.bind FrameEntry.pts with
    | some pl, some pf =>
      if pl - pf = 0 then Except.error PyErr.zeroDivision
      else Except.ok (some (((sizeSum fl : ℚ) * 8 / 1000) / (pl - pf)))
    | _, _ => Except.ok none

/-- The list comprehension `[_bitrate_for_frame_list(x) for x in chunks]`:
exceptions abort the whole computation, in left-to-right order. -/
def mapE (f : List FrameEntry → Except PyErr (Option ℚ)) :
    List (List FrameEntry) → Except PyErr (List (Option ℚ))
  | [] => Except.ok []
  | c :: cs =>
    match f c, mapE f cs with
    | Except.error e, _ => Except.error e
    | Except.ok _, Except.error e => Except.error e
    | Except.ok b, Except.ok bs => Except.ok (b :: bs)

/-- Python `max` on floats: `ValueError` on an empty list, otherwise keep the
running element, replacing it only when a later one compares strictly greater
(NaN comparisons are all false). -/
def pyMax : List (Option ℚ) → Except PyErr (Option ℚ)
  | [] => Except.error PyErr.emptySequence
  | x :: xs => Except.ok (xs.foldl (fun cur y => if gtN y cur then y else cur) x)

/-- Python `min` on floats, analogously. -/
def pyMin : List (Option ℚ) → Except PyErr (Option ℚ)
  | [] => Except.error PyErr.emptySequence
  | x :: xs => Except.ok (xs.foldl (fun cur y => if ltPair y cur then y else cur) x)

/-! The `BitrateStats` instance state and the pipeline `calculate_statistics`. -/

/-- Constructor arguments of `BitrateStats` plus the parsed probe output
(the packet list that `_calculate_frame_sizes` consumes). -/
structure Config where
  input_file : String
  stream_type : StreamType
  aggregation : Aggregation
  chunk_size : ℚ
  info : List RawPacket
  deriving DecidableEq, Repr

/-- The `BitrateStatsSummary` record (only `input_file`/`stream_type` are
copied through verbatim). -/
structure Summary where
  input_file : String
  stream_type : StreamType
  avg_fps : ℚ
  num_frames : ℕ
  avg_bitrate : ℚ
  avg_bitrate_over_chunks : Option ℚ
  max_bitrate : Option ℚ
  min_bitrate : Option ℚ
  max_bitrate_factor : Option ℚ
  bitrate_per_chunk : List (Option ℚ)
  aggregation : Aggregation
  chunk_size : ℚ
  duration : ℚ
  deriving DecidableEq, Repr

/-- The mutable instance attributes of `BitrateStats` touched by the pipeline. -/
structure BState where
  frames : List FrameEntry
  duration : ℚ
  fps : ℚ
  maxB : Option ℚ
  minB : Option ℚ
  chunks : List (Option ℚ)
  stats : Option Summary
  deriving DecidableEq, Repr

/-- The attribute values set by `__init__`. -/
def initState : BState :=
  { frames := [], duration := 0, fps := 0, maxB := some 0, minB := some 0,
    chunks := [], stats := none }

/-- A fresh (cache-miss) run of `_collect_chunks`: partition the frames and
compute the bitrate of every chunk. -/
def freshBR (cfg : Config) : Except PyErr (List (Option ℚ)) :=
  mapE bitrate_for_frame_list
    (chunksOf cfg.aggregation cfg.chunk_size (calc_frame_sizes cfg.info))

/-- Model of the `_assemble_bitrate_statistics` output record (lines 392-410), given the
already-computed pieces; every float field goes through `round(..., 3)`. -/
def mkSummary (cfg : Config) (frames : List FrameEntry) (dur fps : ℚ)
    (brs : List (Option ℚ)) (mx mn : Option ℚ) (avg : ℚ) : Summary :=
  { input_file := cfg.input_file
    stream_type := cfg.stream_type
    avg_fps := pyRound fps 3
    num_frames := frames.length
    avg_bitrate := pyRound avg 3
    avg_bitrate_over_chunks := (npMean brs).map fun b => pyRound b 3
    max_bitrate := mx.map fun b => pyRound b 3
    min_bitrate := mn.map fun b => pyRound b 3
    max_bitrate_factor := (mx.map fun b => b / avg).map fun b => pyRound b 3
    bitrate_per_chunk := brs.map fun b => b.map fun q => pyRound q 3
    aggregation := cfg.aggregation
    chunk_size := cfg.chunk_size
    duration := pyRound dur 3 }

/-- Continuation of `calculate_statistics` once `max`/`min` over the chunk
bitrates are in hand (`_calculate_max_min_bitrate` results): assemble the
summary; `max_bitrate_factor = max_bitrate / avg_bitrate` raises
`ZeroDivisionError` when `avg_bitrate` is zero. -/
def withMaxMin (cfg : Config) (frames : List FrameEntry) (dur fps : ℚ)
    (brs : List (Option ℚ)) (mxE mnE : Except PyErr (Option ℚ)) :
    Except PyErr (Summary × BState) :=
  match mxE, mnE with
  | Except.ok mx, Except.ok mn =>
    if ((sizeSum frames : ℚ) * 8 / 1000) / dur = 0 then Except.error PyErr.zeroDivision
    else
      Except.ok (mkSummary cfg frames dur fps brs mx mn
          (((sizeSum frames : ℚ) * 8 / 1000) / dur),
        { frames := frames, duration := dur, fps := fps, maxB := mx,
          minB := mn, chunks := brs,
          stats := some (mkSummary cfg frames dur fps brs mx mn
            (((sizeSum frames : ℚ) * 8 / 1000) / dur)) })
  | Except.error e, _ => Except.error e
  | _, Except.error e => Except.error e

/-- Continuation of `calculate_statistics` once the chunk-bitrate series is in
hand (the `_collect_chunks` result, which may have raised). -/
def withChunks (cfg : Config) (frames : List FrameEntry) (dur fps : ℚ)
    (brsE : Except PyErr (List (Option ℚ))) : Except PyErr (Summary × BState) :=
  match brsE with
  | Except.error e => Except.error e
  | Except.ok brs => withMaxMin cfg frames dur fps brs (pyMax brs) (pyMin brs)

/-- Model of `calculate_statistics` (lines 155-174): run
`_calculate_frame_sizes`, `_calculate_duration`, `_calculate_fps`,
`_calculate_max_min_bitrate`, `_assemble_bitrate_statistics` in order.
`_calculate_fps` divides by the (2-digit-rounded) duration and
`max_bitrate_factor` divides by `avg_bitrate`; both raise `ZeroDivisionError`
on a zero divisor. The four `_collect_chunks()` calls inside one run all
return the same value because the first one stores it in `self._chunks`
(`if len(self._chunks): return self._chunks`), so a single series models them;
a pre-populated cache from an earlier run is honoured the same way. -/
def calculate_statistics (cfg : Config) (st : BState) :
    Except PyErr (Summary × BState) :=
  let frames := calc_frame_sizes cfg.info
  let dur := calc_duration frames
  if dur = 0 then Except.error PyErr.zeroDivision
  else
    withChunks cfg frames dur ((frames.length : ℚ) / dur)
      (if st.chunks.isEmpty then freshBR cfg else Except.ok st.chunks)

/-! Observation helpers used to state the claims. -/

/-- Duration of the `i`-th frame entry (`none` when missing or out of range). -/
def durAt (l : List FrameEntry) (i : ℕ) : Option ℚ := l[i]?.bind FrameEntry.duration

/-- Pts of the `i`-th frame entry. -/
def ptsAt (l : List FrameEntry) (i : ℕ) : Option ℚ := l[i]?.bind FrameEntry.pts

/-- Pts of the `i`-th raw packet. -/
def rawPtsAt (info : List RawPacket) (i : ℕ) : Option ℚ :=
  info[i]?.bind RawPacket.pts_time

/-- The exact (unrounded) sum of the defined per-packet durations after
`_calculate_frame_sizes`. -/
def rawDurationSum (info : List RawPacket) : ℚ :=
  durSum (calc_frame_sizes info)

/-- Whether an `Except` value is an `ok`. -/
def isOk {α : Type} : Except PyErr α → Bool
  | Except.ok _ => true
  | Except.error _ => false

/-! Concrete inputs used by the witnesses and counterexamples. -/

/-- A 1-packet input with explicit integral duration: the pipeline succeeds. -/
def cfgW : Config :=
  { input_file := "f", stream_type := StreamType.video,
    aggregation := Aggregation.time, chunk_size := 1,
    info := [{ flags := "K_", pts_time := some 0, duration_time := some 1, size := 1000 }] }

/-- The summary `calculate_statistics cfgW` produces. -/
def sumW : Summary :=
  { input_file := "f", stream_type := StreamType.video, avg_fps := 1,
    num_frames := 1, avg_bitrate := 8, avg_bitrate_over_chunks := none,
    max_bitrate := none, min_bitrate := none, max_bitrate_factor := none,
    bitrate_per_chunk := [none], aggregation := Aggregation.time,
    chunk_size := 1, duration := 1 }

/-- The instance state after `calculate_statistics cfgW`. -/
def stateW : BState :=
  { frames := [⟨1, FrameType.I, some 0, 1000, some 1⟩], duration := 1, fps := 1,
    maxB := none, minB := none, chunks := [none], stats := some sumW }

/-- A non-empty input where no duration is derivable: no `duration_time`, no
`pts_time` anywhere. -/
def cfgC1 : Config :=
  { input_file := "f", stream_type := StreamType.video,
    aggregation := Aggregation.time, chunk_size := 1,
    info := [{ flags := "K_", pts_time := none, duration_time := none, size := 100 }] }

/-- Two packets, pts 0 and 1, where the first carries an explicit duration 5
and the second carries none. -/
def infoC2 : List RawPacket :=
  [{ flags := "K_", pts_time := some 0, duration_time := some 5, size := 100 },
   { flags := "__", pts_time := some 1, duration_time := none, size := 100 }]

/-- A 1-packet input whose duration 0.008 rounds differently at 2 and at 3
decimal digits. -/
def cfgC3 : Config :=
  { input_file := "f", stream_type := StreamType.video,
    aggregation := Aggregation.time, chunk_size := 1,
    info := [{ flags := "K_", pts_time := some 0, duration_time := some (1 / 125), size := 1000 }] }

/-- The summary `calculate_statistics cfgC3` produces: note the reported
duration 0.01 and the FPS/bitrate computed from it. -/
def sumC3 : Summary :=
  { input_file := "f", stream_type := StreamType.video, avg_fps := 100,
    num_frames := 1, avg_bitrate := 800, avg_bitrate_over_chunks := none,
    max_bitrate := none, min_bitrate := none, max_bitrate_factor := none,
    bitrate_per_chunk := [none], aggregation := Aggregation.time,
    chunk_size := 1, duration := 1 / 100 }

/-- The instance state after `calculate_statistics cfgC3`. -/
def stateC3 : BState :=
  { frames := [⟨1, FrameType.I, some 0, 1000, some (1 / 125)⟩], duration := 1 / 100,
    fps := 100, maxB := none, minB := none, chunks := [none], stats := some sumC3 }

/-- Two frames with distinct pts 0 and 1 (a well-formed 2-frame chunk). -/
def fC5a : FrameEntry := ⟨1, FrameType.I, some 0, 1000, some 1⟩

/-- Second frame of the well-formed chunk. -/
def fC5b : FrameEntry := ⟨2, FrameType.NonI, some 1, 1000, some 1⟩

/-- Two frames sharing the same pts 0: the pts delta of the chunk is zero. -/
def fC5z1 : FrameEntry := ⟨1, FrameType.I, some 0, 100, some 1⟩

/-- Second frame with the same pts 0. -/
def fC5z2 : FrameEntry := ⟨2, FrameType.NonI, some 0, 100, some 1⟩

/-- Two packets with pts only (durations derivable only from timestamps). -/
def infoW6 : List RawPacket :=
  [{ flags := "K_", pts_time := some 0, duration_time := none, size := 100 },
   { flags := "__", pts_time := some 1, duration_time := none, size := 200 }]

/-- Frames with explicit durations 1 each; in time mode with chunk size 1 the
first chunk closes exactly at the threshold. -/
def framesW8 : List FrameEntry :=
  [⟨1, FrameType.I, some 0, 100, some 1⟩, ⟨2, FrameType.NonI, some 1, 100, some 1⟩]

/-- Frame pattern Key, NonKey, Key: GOP chunking yields two chunks. -/
def framesW9 : List FrameEntry :=
  [⟨1, FrameType.I, some 0, 10, some 1⟩, ⟨2, FrameType.NonI, some 1, 20, some 1⟩,
   ⟨3, FrameType.I, some 2, 30, some 1⟩]

/-! Rounding lemmas. -/

theorem rhe_intCast (z : ℤ) : rhe (z : ℚ) = z := by
  simp [rhe]

theorem pyRound_intCast (z : ℤ) (n : ℕ) : pyRound (z : ℚ) n = z := by
  have h : ((z : ℚ)) * 10 ^ n = ((z * 10 ^ n : ℤ) : ℚ) := by push_cast; ring
  rw [pyRound, h, rhe_intCast]
  push_cast
  rw [mul_div_assoc]
  simp

theorem pyRound_zero (n : ℕ) : pyRound 0 n = 0 := by
  simpa using pyRound_intCast 0 n

/-- Re-rounding a 2-digit-rounded value at 3 digits is the identity. -/
theorem pyRound_two_round_three (x : ℚ) : pyRound (pyRound x 2) 3 = pyRound x 2 := by
  simp only [pyRound]
  have h : (rhe (x * 10 ^ 2) : ℚ) / 10 ^ 2 * 10 ^ 3 = ((rhe (x * 10 ^ 2) * 10 : ℤ) : ℚ) := by
    push_cast; ring
  rw [h, rhe_intCast]
  push_cast
  ring

/-! Chunker lemmas. -/

theorem gopGo_flatten (frames : List FrameEntry) :
    ∀ chunks curr, (gopGo chunks curr frames).flatten = chunks.flatten ++ curr ++ frames := by
  induction frames with
  | nil => intro chunks curr; simp [gopGo]
  | cons f rest ih =>
    intro chunks curr
    rw [gopGo]
    cases hft : f.frame_type with
    | NonI => rw [ih]; simp
    | I =>
      by_cases hc : curr.isEmpty
      · rw [List.isEmpty_iff.mp hc]
        simp [ih]
      · simp only [hc, if_neg, Bool.false_eq_true, not_false_iff, ite_false]
        rw [ih]
        simp

theorem timeGo_flatten (cs : ℚ) (frames : List FrameEntry) :
    ∀ chunks curr agg,
      (timeGo cs chunks curr agg frames).flatten = chunks.flatten ++ curr ++ frames := by
  induction frames with
  | nil => intro chunks curr agg; simp [timeGo]
  | cons f rest ih =>
    intro chunks curr agg
    rw [timeGo]
    by_cases hlt : ltN agg cs
    · rw [if_pos hlt, ih]; simp
    · rw [if_neg hlt, ih]
      by_cases hc : curr.isEmpty
      · rw [List.isEmpty_iff.mp hc]; simp
      · simp only [hc, Bool.false_eq_true, not_false_iff, ite_false]
        simp

/-- C7: the chunks produced by `_collect_chunks`, concatenated in chunk order,
reconstruct the original packet sequence exactly, in both aggregation modes. -/
theorem claim_C7 (agg : Aggregation) (cs : ℚ) (frames : List FrameEntry) :
    (chunksOf agg cs frames).flatten = frames := by
  cases agg
  · simp [chunksOf, timeGo_flatten]
  · simp [chunksOf, gopGo_flatten]

theorem gopGo_ne_nil (frames : List FrameEntry) :
    ∀ chunks curr, gopGo chunks curr frames ≠ [] := by
  induction frames with
  | nil => intro chunks curr; simp [gopGo]
  | cons f rest ih =>
    intro chunks curr
    rw [gopGo]
    cases f.frame_type
    · apply ih
    · apply ih

theorem timeGo_ne_nil (cs : ℚ) (frames : List FrameEntry) :
    ∀ chunks curr agg, timeGo cs chunks curr agg frames ≠ [] := by
  induction frames with
  | nil => intro chunks curr agg; simp [timeGo]
  | cons f rest ih =>
    intro chunks curr agg
    rw [timeGo]
    by_cases hlt : ltN agg cs
    · rw [if_pos hlt]; apply ih
    · rw [if_neg hlt]; apply ih

theorem chunksOf_ne_nil (agg : Aggregation) (cs : ℚ) (frames : List FrameEntry) :
    chunksOf agg cs frames ≠ [] := by
  cases agg
  · exact timeGo_ne_nil cs frames [] [] (some 0)
  · exact gopGo_ne_nil frames [] []

theorem mapE_ne_nil (f : List FrameEntry → Except PyErr (Option ℚ))
    (l : List (List FrameEntry)) (hl : l ≠ []) (brs : List (Option ℚ))
    (h : mapE f l = Except.ok brs) : brs ≠ [] := by
  cases l with
  | nil => exact absurd rfl hl
  | cons c cs =>
    rw [mapE] at h
    cases hfc : f c <;> rw [hfc] at h
    · simp at h
    · cases hrest : mapE f cs <;> rw [hrest] at h
      · simp at h
      · simp only [Except.ok.injEq] at h
        intro hbrs
        rw [hbrs] at h
        exact List.cons_ne_nil _ _ h

/-- C10: every packet sequence (the empty one included), in both modes, yields
at least one chunk (the final open chunk is always flushed), so the bitrate
series is non-empty and `max`/`min` over it never raise for lack of elements. -/
theorem claim_C10 (agg : Aggregation) (cs : ℚ) (frames : List FrameEntry) :
    chunksOf agg cs frames ≠ [] ∧
    ∀ brs, mapE bitrate_for_frame_list (chunksOf agg cs frames) = Except.ok brs →
      brs ≠ [] ∧ isOk (pyMax brs) = true ∧ isOk (pyMin brs) = true := by
  refine ⟨chunksOf_ne_nil agg cs frames, fun brs h => ?_⟩
  have hne : brs ≠ [] := mapE_ne_nil _ _ (chunksOf_ne_nil agg cs frames) _ h
  cases brs with
  | nil => exact absurd rfl hne
  | cons b bs =>
    refine ⟨hne, ?_, ?_⟩
    · rw [pyMax]; rfl
    · rw [pyMin]; rfl

/-- C10 witness: the empty packet sequence still yields the one-element bitrate
series `[NaN]`, on which `max`/`min` do not fail. -/
theorem claim_C10_witness :
    ([none] : List (Option ℚ)) ≠ [] ∧
    isOk (pyMax [none]) = true ∧ isOk (pyMin [none]) = true :=
  (claim_C10 Aggregation.time 1 []).2 [none] (by rfl)

theorem gopGo_drop_one (frames : List FrameEntry) :
    ∀ chunks curr,
      (∀ c ∈ chunks.drop 1, c.head?.map FrameEntry.frame_type = some FrameType.I) →
      (chunks ≠ [] → curr.head?.map FrameEntry.frame_type = some FrameType.I) →
      ∀ c ∈ (gopGo chunks curr frames).drop 1,
        c.head?.map FrameEntry.frame_type = some FrameType.I := by
  induction frames with
  | nil =>
    intro chunks curr h1 h2 c hc
    rw [gopGo] at hc
    cases chunks with
    | nil => simp at hc
    | cons x xs =>
      rw [List.drop_append_of_le_length (by simp)] at hc
      rcases List.mem_append.mp hc with hmem | hmem
      · exact h1 c (by simpa using hmem)
      · rw [List.mem_singleton.mp hmem]
        exact h2 (List.cons_ne_nil x xs)
  | cons f rest ih =>
    intro chunks curr h1 h2 c hc
    rw [gopGo] at hc
    revert hc
    cases hft : f.frame_type with
    | NonI =>
      intro hc
      refine ih chunks (curr ++ [f]) h1 (fun hne => ?_) c hc
      have := h2 hne
      cases curr with
      | nil => simp at this
      | cons c0 cst => simpa using this
    | I =>
      intro hc
      by_cases hce : curr.isEmpty
      · rw [if_pos hce] at hc
        refine ih chunks [f] h1 (fun _ => ?_) c hc
        simp [hft]
      · rw [if_neg hce] at hc
        refine ih (chunks ++ [curr]) [f] ?_ (fun _ => by simp [hft]) c hc
        intro c' hc'
        cases chunks with
        | nil => simp at hc'
        | cons x xs =>
          rw [List.drop_append_of_le_length (by simp)] at hc'
          rcases List.mem_append.mp hc' with hmem | hmem
          · exact h1 c' (by simpa using hmem)
          · rw [List.mem_singleton.mp hmem]
            exact h2 (List.cons_ne_nil x xs)

/-- C9: in GOP mode every chunk except possibly the first starts with a Key
frame. -/
theorem claim_C9 (cs : ℚ) (frames : List FrameEntry) :
    ∀ c ∈ (chunksOf Aggregation.gop cs frames).drop 1,
      c.head?.map FrameEntry.frame_type = some FrameType.I := by
  intro c hc
  exact gopGo_drop_one frames [] [] (by simp) (fun h => absurd rfl h) c (by simpa [chunksOf] using hc)

/-- C9 witness: on the pattern Key, NonKey, Key the second chunk starts with
the second Key frame. -/
theorem claim_C9_witness :
    ([(⟨3, FrameType.I, some 2, 30, some 1⟩ : FrameEntry)].head?.map FrameEntry.frame_type
      = some FrameType.I) :=
  claim_C9 1 framesW9 [⟨3, FrameType.I, some 2, 30, some 1⟩]
    (by simp [chunksOf, framesW9, gopGo])

theorem durSum_append (l1 l2 : List FrameEntry) :
    durSum (l1 ++ l2) = durSum l1 + durSum l2 := by
  simp [durSum]

theorem timeGo_dropLast (cs : ℚ) (frames : List FrameEntry) :
    ∀ chunks curr agg,
      (∀ f ∈ frames, f.duration.isSome) →
      (∀ c ∈ chunks, cs ≤ durSum c) →
      agg = some (durSum curr) →
      ∀ c ∈ (timeGo cs chunks curr agg frames).dropLast, cs ≤ durSum c := by
  induction frames with
  | nil =>
    intro chunks curr agg _ h1 _ c hc
    rw [timeGo] at hc
    rw [List.dropLast_concat] at hc
    exact h1 c hc
  | cons f rest ih =>
    intro chunks curr agg hdef h1 hagg c hc
    obtain ⟨d, hd⟩ := Option.isSome_iff_exists.mp (hdef f (by simp))
    have hdefr : ∀ g ∈ rest, g.duration.isSome := fun g hg => hdef g (by simp [hg])
    rw [timeGo] at hc
    by_cases hlt : ltN agg cs
    · rw [if_pos hlt] at hc
      refine ih chunks (curr ++ [f]) _ hdefr h1 ?_ c hc
      rw [hagg, hd, durSum_append]
      simp [addN, durSum, hd]
    · rw [if_neg hlt] at hc
      have hcurr : cs ≤ durSum curr := by
        rw [hagg] at hlt
        simp only [ltN, decide_eq_true_eq] at hlt
        exact le_of_not_lt hlt
      have h1' : ∀ c' ∈ (if curr.isEmpty then chunks else chunks ++ [curr]), cs ≤ durSum c' := by
        by_cases hce : curr.isEmpty
        · rw [if_pos hce]; exact h1
        · rw [if_neg hce]
          intro c' hc'
          rcases List.mem_append.mp hc' with hmem | hmem
          · exact h1 c' hmem
          · rw [List.mem_singleton.mp hmem]; exact hcurr
      refine ih _ [f] _ hdefr h1' ?_ c hc
      simp [durSum, hd]

/-- C8: in time mode with positive chunk size, when every duration is defined,
every chunk but possibly the last accumulates a duration sum of at least the
chunk size. -/
theorem claim_C8 (cs : ℚ) (frames : List FrameEntry) (_hcs : 0 < cs)
    (hdef : ∀ f ∈ frames, f.duration.isSome) :
    ∀ c ∈ (chunksOf Aggregation.time cs frames).dropLast, cs ≤ durSum c := by
  intro c hc
  refine timeGo_dropLast cs frames [] [] (some 0) hdef (by simp) (by simp [durSum]) c ?_
  simpa [chunksOf] using hc

/-- C8 witness: two frames of duration 1 with chunk size 1 give chunks
`[[f1], [f2]]`; the sole non-final chunk has duration sum `1 ≥ 1`. -/
theorem claim_C8_witness :
    (0 : ℚ) < 1 ∧ (1 : ℚ) ≤ durSum [⟨1, FrameType.I, some 0, 100, some 1⟩] :=
  ⟨by norm_num,
    claim_C8 1 framesW8 (by norm_num) (by simp [framesW8])
      [⟨1, FrameType.I, some 0, 100, some 1⟩]
      (by simp [chunksOf, framesW8, timeGo, ltN, addN])⟩

/-! Index access lemmas. -/

theorem ptsAt_cons_zero (f : FrameEntry) (t : List FrameEntry) :
    ptsAt (f :: t) 0 = f.pts := by
  simp [ptsAt]

theorem ptsAt_cons_succ (f : FrameEntry) (t : List FrameEntry) (i : ℕ) :
    ptsAt (f :: t) (i + 1) = ptsAt t i := by
  simp [ptsAt]

theorem ptsAt_cons_of_pos (f : FrameEntry) (t : List FrameEntry) (i : ℕ) (h : 0 < i) :
    ptsAt (f :: t) i = ptsAt t (i - 1) := by
  cases i with
  | zero => omega
  | succ j => simp [ptsAt]

theorem durAt_cons_zero (f : FrameEntry) (t : List FrameEntry) :
    durAt (f :: t) 0 = f.duration := by
  simp [durAt]

theorem durAt_cons_succ (f : FrameEntry) (t : List FrameEntry) (i : ℕ) :
    durAt (f :: t) (i + 1) = durAt t i := by
  simp [durAt]

theorem durAt_cons_of_pos (f : FrameEntry) (t : List FrameEntry) (i : ℕ) (h : 0 < i) :
    durAt (f :: t) i = durAt t (i - 1) := by
  cases i with
  | zero => omega
  | succ j => simp [durAt]

/-! `mkFrames` lemmas. -/

theorem mkFrames_length (dd : Option ℚ) :
    ∀ (info : List RawPacket) (k : ℕ), (mkFrames dd k info).length = info.length := by
  intro info
  induction info with
  | nil => intro k; rfl
  | cons p ps ih => intro k; simp [mkFrames, ih]

theorem mkFrames_ptsAt (dd : Option ℚ) :
    ∀ (info : List RawPacket) (k i : ℕ),
      ptsAt (mkFrames dd k info) i = rawPtsAt info i := by
  intro info
  induction info with
  | nil => intro k i; simp [mkFrames, ptsAt, rawPtsAt]
  | cons p ps ih =>
    intro k i
    cases i with
    | zero => simp [mkFrames, ptsAt, rawPtsAt]
    | succ j =>
      rw [mkFrames, ptsAt_cons_succ, ih]
      simp [rawPtsAt]

theorem mkFrames_pts_isSome (dd : Option ℚ) :
    ∀ (info : List RawPacket) (k : ℕ),
      (∀ p ∈ info, p.pts_time.isSome) → ∀ f ∈ mkFrames dd k info, f.pts.isSome := by
  intro info
  induction info with
  | nil => intro k _ f hf; simp [mkFrames] at hf
  | cons p ps ih =>
    intro k hp f hf
    rw [mkFrames] at hf
    rcases List.mem_cons.mp hf with hfe | hmem
    · rw [hfe]; exact hp p (by simp)
    · exact ih (k + 1) (fun q hq => hp q (by simp [hq])) f hmem

theorem mkFrames_pts_none (dd : Option ℚ) :
    ∀ (info : List RawPacket) (k : ℕ),
      (∀ p ∈ info, p.pts_time = none) → ∀ f ∈ mkFrames dd k info, f.pts = none := by
  intro info
  induction info with
  | nil => intro k _ f hf; simp [mkFrames] at hf
  | cons p ps ih =>
    intro k hp f hf
    rw [mkFrames] at hf
    rcases List.mem_cons.mp hf with hfe | hmem
    · rw [hfe]; exact hp p (by simp)
    · exact ih (k + 1) (fun q hq => hp q (by simp [hq])) f hmem

theorem mkFrames_map_duration (dd : Option ℚ) :
    ∀ (info : List RawPacket) (k : ℕ),
      (mkFrames dd k info).map FrameEntry.duration =
        info.map fun p => p.duration_time.orElse fun _ => dd := by
  intro info
  induction info with
  | nil => intro k; rfl
  | cons p ps ih => intro k; simp [mkFrames, ih]

theorem mkFrames_duration_none :
    ∀ (info : List RawPacket) (k : ℕ),
      (∀ p ∈ info, p.duration_time = none) →
      ∀ f ∈ mkFrames none k info, f.duration = none := by
  intro info
  induction info with
  | nil => intro k _ f hf; simp [mkFrames] at hf
  | cons p ps ih =>
    intro k hp f hf
    rw [mkFrames] at hf
    rcases List.mem_cons.mp hf with hfe | hmem
    · rw [hfe]
      simp [hp p (by simp), Option.orElse]
    · exact ih (k + 1) (fun q hq => hp q (by simp [hq])) f hmem

/-! `fixGo` / `fix_durations` lemmas. -/

theorem fixGo_skip :
    ∀ (l : List FrameEntry), (∀ f ∈ l, f.pts = none) → ∀ last, fixGo last l = (l, last) := by
  intro l
  induction l with
  | nil => intro _ last; rfl
  | cons f tail ih =>
    intro hp last
    cases tail with
    | nil => rfl
    | cons g rest =>
      have hf : f.pts = none := hp f (by simp)
      have hrec := ih (fun x hx => hp x (by simp [hx])) last
      rw [fixGo, hf]
      simp [hrec]

theorem fixGo_fst_length :
    ∀ (l : List FrameEntry) (last : Option ℚ), (fixGo last l).1.length = l.length := by
  intro l
  induction l with
  | nil => intro last; rfl
  | cons f tail ih =>
    intro last
    cases tail with
    | nil => rfl
    | cons g rest =>
      rw [fixGo]
      cases hf : f.pts with
      | none => simp [ih]
      | some c =>
        cases hg : g.pts with
        | none => simp [ih]
        | some nx => simp [ih]

theorem fixGo_durAt :
    ∀ (l : List FrameEntry) (last : Option ℚ) (i : ℕ),
      (∀ f ∈ l, f.pts.isSome) → i + 1 < l.length →
      durAt (fixGo last l).1 i = subN (ptsAt l (i + 1)) (ptsAt l i) := by
  intro l
  induction l with
  | nil => intro last i _ hi; simp at hi
  | cons f tail ih =>
    intro last i hp hi
    cases tail with
    | nil => simp at hi
    | cons g rest =>
      obtain ⟨c, hc⟩ := Option.isSome_iff_exists.mp (hp f (by simp))
      obtain ⟨nx, hg⟩ := Option.isSome_iff_exists.mp (hp g (by simp))
      have hptail : ∀ x ∈ g :: rest, x.pts.isSome := fun x hx => hp x (by simp [hx])
      rw [fixGo, hc, hg]
      cases i with
      | zero =>
        rw [ptsAt_cons_succ, ptsAt_cons_zero, ptsAt_cons_zero, hc, hg]
        simp [durAt, subN]
      | succ j =>
        simp only []
        rw [durAt_cons_succ, ptsAt_cons_succ f (g :: rest) (j + 1),
          ptsAt_cons_succ f (g :: rest) j]
        exact ih (some (nx - c)) j hptail (by simpa using hi)

theorem fixGo_snd :
    ∀ (l : List FrameEntry) (last : Option ℚ),
      (∀ f ∈ l, f.pts.isSome) → 2 ≤ l.length →
      (fixGo last l).2 = subN (ptsAt l (l.length - 1)) (ptsAt l (l.length - 2)) := by
  intro l
  induction l with
  | nil => intro last _ h2; simp at h2
  | cons f tail ih =>
    intro last hp h2
    cases tail with
    | nil => simp at h2
    | cons g rest =>
      obtain ⟨c, hc⟩ := Option.isSome_iff_exists.mp (hp f (by simp))
      obtain ⟨nx, hg⟩ := Option.isSome_iff_exists.mp (hp g (by simp))
      have hptail : ∀ x ∈ g :: rest, x.pts.isSome := fun x hx => hp x (by simp [hx])
      cases rest with
      | nil =>
        rw [fixGo, hc, hg]
        simp only [List.length_cons, List.length_nil]
        rw [ptsAt_cons_succ, ptsAt_cons_zero, ptsAt_cons_zero, hc, hg]
        simp [fixGo, subN]
      | cons r rs =>
        rw [fixGo, hc, hg]
        simp only []
        have htail := ih (some (nx - c)) hptail (by simp)
        have e1 : ptsAt (f :: g :: r :: rs) ((f :: g :: r :: rs).length - 1)
            = ptsAt (g :: r :: rs) ((g :: r :: rs).length - 1) := by
          rw [ptsAt_cons_of_pos _ _ _ (by simp)]
          simp
        have e2 : ptsAt (f :: g :: r :: rs) ((f :: g :: r :: rs).length - 2)
            = ptsAt (g :: r :: rs) ((g :: r :: rs).length - 2) := by
          rw [ptsAt_cons_of_pos _ _ _ (by simp)]
          simp
        rw [e1, e2, ← htail]

theorem setLastDuration_length (d : ℚ) :
    ∀ (l : List FrameEntry), (setLastDuration l d).length = l.length := by
  intro l
  induction l with
  | nil => rfl
  | cons f tail ih =>
    cases tail with
    | nil => rfl
    | cons g rest => rw [setLastDuration]; simpa using ih

theorem setLastDuration_durAt_lt (d : ℚ) :
    ∀ (l : List FrameEntry) (i : ℕ), i + 1 < l.length →
      durAt (setLastDuration l d) i = durAt l i := by
  intro l
  induction l with
  | nil => intro i hi; simp at hi
  | cons f tail ih =>
    intro i hi
    cases tail with
    | nil => simp at hi
    | cons g rest =>
      rw [setLastDuration]
      cases i with
      | zero => rw [durAt_cons_zero, durAt_cons_zero]
      | succ j =>
        rw [durAt_cons_succ, durAt_cons_succ]
        exact ih j (by simpa using hi)

theorem setLastDuration_durAt_last (d : ℚ) :
    ∀ (l : List FrameEntry), l ≠ [] →
      durAt (setLastDuration l d) (l.length - 1) = some d := by
  intro l
  induction l with
  | nil => intro h; exact absurd rfl h
  | cons f tail ih =>
    intro _
    cases tail with
    | nil => simp [setLastDuration, durAt]
    | cons g rest =>
      rw [setLastDuration]
      have e : (f :: g :: rest).length - 1 = ((g :: rest).length - 1) + 1 := by simp
      rw [e, durAt_cons_succ]
      exact ih (List.cons_ne_nil g rest)

theorem ptsAt_isSome (l : List FrameEntry) (hp : ∀ f ∈ l, f.pts.isSome) (j : ℕ)
    (hj : j < l.length) : (ptsAt l j).isSome := by
  rw [ptsAt, List.getElem?_eq_getElem hj]
  exact hp _ (List.getElem_mem hj)

/-! `_calculate_frame_sizes` reduction lemmas. -/

theorem default_duration_of_none (info : List RawPacket)
    (hd : ∀ p ∈ info, p.duration_time = none) : default_duration info = none := by
  have h : info.filterMap RawPacket.duration_time = [] := List.filterMap_eq_nil_iff.mpr hd
  rw [default_duration, h]
  rfl

theorem calc_frame_sizes_no_duration (info : List RawPacket)
    (hd : ∀ p ∈ info, p.duration_time = none) :
    calc_frame_sizes info = fix_durations (mkFrames none 1 info) := by
  simp only [calc_frame_sizes, default_duration_of_none info hd, if_pos]

/-- C6: when no packet carries an explicit duration and every pts is present,
after the repair `duration[i] = pts[i+1] - pts[i]` for every index but the
last, and the last record's duration equals the second-to-last's. -/
theorem claim_C6 (info : List RawPacket) (h2 : 2 ≤ info.length)
    (hdur : ∀ p ∈ info, p.duration_time = none)
    (hpts : ∀ p ∈ info, p.pts_time.isSome) :
    (∀ i, i + 1 < info.length →
      durAt (calc_frame_sizes info) i = subN (rawPtsAt info (i + 1)) (rawPtsAt info i)) ∧
    durAt (calc_frame_sizes info) (info.length - 1)
      = durAt (calc_frame_sizes info) (info.length - 2) := by
  have hcf := calc_frame_sizes_no_duration info hdur
  have hlen : (mkFrames none 1 info).length = info.length := mkFrames_length none info 1
  have hpL : ∀ f ∈ mkFrames none 1 info, f.pts.isSome := mkFrames_pts_isSome none info 1 hpts
  have h2L : 2 ≤ (mkFrames none 1 info).length := by omega
  have hsnd := fixGo_snd (mkFrames none 1 info) none hpL h2L
  obtain ⟨a, ha⟩ := Option.isSome_iff_exists.mp
    (ptsAt_isSome (mkFrames none 1 info) hpL ((mkFrames none 1 info).length - 1) (by omega))
  obtain ⟨b, hb⟩ := Option.isSome_iff_exists.mp
    (ptsAt_isSome (mkFrames none 1 info) hpL ((mkFrames none 1 info).length - 2) (by omega))
  rw [ha, hb] at hsnd
  rcases hgo : fixGo none (mkFrames none 1 info) with ⟨L', last'⟩
  rw [hgo] at hsnd
  simp only [subN] at hsnd
  have hL'len : L'.length = info.length := by
    have := fixGo_fst_length (mkFrames none 1 info) none
    rw [hgo] at this
    simpa [hlen] using this
  have hfd : calc_frame_sizes info = setLastDuration L' (a - b) := by
    rw [hcf]
    unfold fix_durations
    rw [hgo, hsnd]
  have hA : ∀ i, i + 1 < info.length →
      durAt (calc_frame_sizes info) i = subN (rawPtsAt info (i + 1)) (rawPtsAt info i) := by
    intro i hi
    rw [hfd, setLastDuration_durAt_lt _ _ _ (by omega)]
    have hda := fixGo_durAt (mkFrames none 1 info) none i hpL (by omega)
    rw [hgo] at hda
    rw [hda, mkFrames_ptsAt, mkFrames_ptsAt]
  refine ⟨hA, ?_⟩
  have hlast : durAt (calc_frame_sizes info) (info.length - 1) = some (a - b) := by
    rw [hfd]
    have := setLastDuration_durAt_last (a - b) L' (by
      intro hnil
      rw [hnil] at hL'len
      simp at hL'len
      omega)
    rwa [hL'len] at this
  have hpen : durAt (calc_frame_sizes info) (info.length - 2) = some (a - b) := by
    have hi : (info.length - 2) + 1 < info.length := by omega
    rw [hA (info.length - 2) hi]
    have e1 : info.length - 2 + 1 = info.length - 1 := by omega
    rw [e1]
    rw [← mkFrames_ptsAt none info 1, ← mkFrames_ptsAt none info 1]
    rw [hlen] at ha hb
    rw [ha, hb]
    rfl
  rw [hlast, hpen]

/-- C6 witness: two packets with pts 0 and 1 and no explicit durations; the
last record's duration equals the second-to-last's (both 1). -/
theorem claim_C6_witness :
    (2 ≤ infoW6.length) ∧
    durAt (calc_frame_sizes infoW6) (infoW6.length - 1)
      = durAt (calc_frame_sizes infoW6) (infoW6.length - 2) :=
  ⟨by simp [infoW6],
    (claim_C6 infoW6 (by simp [infoW6]) (by simp [infoW6]) (by simp [infoW6])).2⟩

/-- C1 counterexample: a non-empty input with no derivable duration anywhere
makes the pipeline raise `ZeroDivisionError` (in `_calculate_fps`) instead of
producing best-effort output. -/
theorem claim_C1_cex :
    calculate_statistics cfgC1 initState = Except.error PyErr.zeroDivision := by
  have h0 : pyRound 0 2 = 0 := pyRound_zero 2
  rw [calculate_statistics]
  simp [calc_frame_sizes, default_duration, cfgC1, mkFrames, fix_durations, fixGo,
    calc_duration, Option.orElse, h0]

/-- C1 (amended): with no derivable duration the duration sum is indeed 0 (the
sum excludes undefined durations and does not itself error), but the pipeline
then raises `ZeroDivisionError` when `_calculate_fps` divides the frame count
by the zero duration, so no best-effort summary is produced. -/
theorem claim_C1_amended (ifile : String) (stype : StreamType) (agg : Aggregation)
    (cs : ℚ) (info : List RawPacket) (_hne : info ≠ [])
    (hdur : ∀ p ∈ info, p.duration_time = none)
    (hpts : ∀ p ∈ info, p.pts_time = none) :
    calc_duration (calc_frame_sizes info) = 0 ∧
    calculate_statistics ⟨ifile, stype, agg, cs, info⟩ initState
      = Except.error PyErr.zeroDivision := by
  have hfr : calc_frame_sizes info = mkFrames none 1 info := by
    rw [calc_frame_sizes_no_duration info hdur]
    have hpnone : ∀ f ∈ mkFrames none 1 info, f.pts = none :=
      mkFrames_pts_none none info 1 hpts
    have hskip := fixGo_skip (mkFrames none 1 info) hpnone none
    unfold fix_durations
    rw [hskip]
  have hdnone : ∀ f ∈ calc_frame_sizes info, f.duration = none := by
    rw [hfr]
    exact mkFrames_duration_none info 1 hdur
  have hsum : calc_duration (calc_frame_sizes info) = 0 := by
    rw [calc_duration, List.filterMap_eq_nil_iff.mpr hdnone]
    simpa using pyRound_zero 2
  refine ⟨hsum, ?_⟩
  rw [calculate_statistics]
  simp only []
  rw [if_pos]
  exact hsum

/-- C1 witness: the concrete one-packet input of the counterexample satisfies
the hypotheses, sums to duration 0 and errors. -/
theorem claim_C1_witness :
    calc_duration (calc_frame_sizes cfgC1.info) = 0 ∧
    calculate_statistics cfgC1 initState = Except.error PyErr.zeroDivision :=
  claim_C1_amended "f" StreamType.video Aggregation.time 1 cfgC1.info
    (by simp [cfgC1]) (by simp [cfgC1]) (by simp [cfgC1])

/-- C2 counterexample: with packets `[duration 5, no duration]` and pts
`[0, 1]`, the code fills both durations with the default 5; the claimed
pts-delta repair (`duration[0] = pts[1] - pts[0] = 1`) does not happen. -/
theorem claim_C2_cex :
    (calc_frame_sizes infoC2).map FrameEntry.duration = [some 5, some 5] ∧
    durAt (calc_frame_sizes infoC2) 0 ≠ subN (rawPtsAt infoC2 1) (rawPtsAt infoC2 0) := by
  constructor
  · simp [calc_frame_sizes, default_duration, infoC2, mkFrames, Option.orElse]
  · simp [calc_frame_sizes, default_duration, infoC2, mkFrames, Option.orElse,
      durAt, rawPtsAt, subN]

/-- C2 (amended): the sequence is returned unchanged whenever every record
carries an explicit duration; more generally, whenever at least one record
carries one, the records lacking a duration are filled with the first explicit
duration found, and no pts-delta repair occurs. (The pts-delta repair runs only
when no record carries an explicit duration.) -/
theorem claim_C2_amended (info : List RawPacket) :
    (info.filterMap RawPacket.duration_time ≠ [] →
      (calc_frame_sizes info).map FrameEntry.duration =
        info.map fun p => p.duration_time.orElse fun _ => default_duration info) ∧
    ((∀ p ∈ info, p.duration_time.isSome) →
      (calc_frame_sizes info).map FrameEntry.duration = info.map RawPacket.duration_time) := by
  have hpart1 : info.filterMap RawPacket.duration_time ≠ [] →
      (calc_frame_sizes info).map FrameEntry.duration =
        info.map fun p => p.duration_time.orElse fun _ => default_duration info := by
    intro hne
    have hdd : ¬ default_duration info = none := by
      rw [default_duration]
      cases hfm : info.filterMap RawPacket.duration_time with
      | nil => exact absurd hfm hne
      | cons x xs => simp
    simp only [calc_frame_sizes]
    rw [if_neg hdd]
    exact mkFrames_map_duration (default_duration info) info 1
  refine ⟨hpart1, fun hall => ?_⟩
  cases info with
  | nil => simp [calc_frame_sizes, default_duration, mkFrames, fix_durations, fixGo]
  | cons p ps =>
    obtain ⟨d0, hd0⟩ := Option.isSome_iff_exists.mp (hall p (by simp))
    have hne : (p :: ps).filterMap RawPacket.duration_time ≠ [] := by
      simp [List.filterMap_cons, hd0]
    rw [hpart1 hne]
    apply List.map_congr_left
    intro q hq
    obtain ⟨dq, hdq⟩ := Option.isSome_iff_exists.mp (hall q hq)
    simp [hdq, Option.orElse]

/-- C2 witness: on the mixed input the "at least one explicit duration" branch
applies, with the default-fill result. -/
theorem claim_C2_witness :
    infoC2.filterMap RawPacket.duration_time ≠ [] ∧
    (calc_frame_sizes infoC2).map FrameEntry.duration =
      infoC2.map fun p => p.duration_time.orElse fun _ => default_duration infoC2 :=
  ⟨by simp [infoC2], (claim_C2_amended infoC2).1 (by simp [infoC2])⟩

/-- C5 (amended): for a chunk of at least 2 packets with defined first and
last pts, when the pts delta is non-zero the bitrate equals
`(Σ size × 8 / 1000) / (pts[last] - pts[first])` (first/last timestamps only,
not the duration sum); a chunk of fewer than 2 packets gets a NaN bitrate; and
when the first and last pts are equal the code raises `ZeroDivisionError`
instead of returning a value. -/
theorem claim_C5_amended :
    (∀ (fl : List FrameEntry) (pf pl : ℚ),
        2 ≤ fl.length →
        fl.head?.bind FrameEntry.pts = some pf →
        fl.getLast?.bind FrameEntry.pts = some pl →
        pl - pf ≠ 0 →
        bitrate_for_frame_list fl
          = Except.ok (some (((sizeSum fl : ℚ) * 8 / 1000) / (pl - pf)))) ∧
    (∀ fl : List FrameEntry, fl.length < 2 →
        bitrate_for_frame_list fl = Except.ok none) ∧
    (∀ (fl : List FrameEntry) (p : ℚ),
        2 ≤ fl.length →
        fl.head?.bind FrameEntry.pts = some p →
        fl.getLast?.bind FrameEntry.pts = some p →
        bitrate_for_frame_list fl = Except.error PyErr.zeroDivision) := by
  refine ⟨?_, ?_, ?_⟩
  · intro fl pf pl h2 hh hl hne
    rw [bitrate_for_frame_list, if_neg (by omega), hl, hh]
    simp [hne]
  · intro fl h1
    rw [bitrate_for_frame_list, if_pos h1]
  · intro fl p h2 hh hl
    rw [bitrate_for_frame_list, if_neg (by omega), hl, hh]
    simp

/-- C5 witness: a 2-packet chunk with pts 0 and 1 and sizes 1000 each has
bitrate `(2000 × 8 / 1000) / (1 - 0)`. -/
theorem claim_C5_witness :
    (2 ≤ ([fC5a, fC5b] : List FrameEntry).length) ∧
    bitrate_for_frame_list [fC5a, fC5b]
      = Except.ok (some (((sizeSum [fC5a, fC5b] : ℚ) * 8 / 1000) / ((1 : ℚ) - 0))) :=
  ⟨by simp,
    claim_C5_amended.1 [fC5a, fC5b] 0 1 (by simp) (by simp [fC5a])
      (by simp [fC5b]) (by norm_num)⟩

/-- C5 counterexample: a 2-packet chunk whose first and last pts are both 0
(defined timestamps) makes `_bitrate_for_frame_list` raise `ZeroDivisionError`
rather than return the claimed bitrate value. -/
theorem claim_C5_cex :
    bitrate_for_frame_list [fC5z1, fC5z2] = Except.error PyErr.zeroDivision ∧
    Except.error PyErr.zeroDivision
      ≠ Except.ok (some (((sizeSum [fC5z1, fC5z2] : ℚ) * 8 / 1000) / ((0 : ℚ) - 0))) := by
  constructor
  · rw [bitrate_for_frame_list, if_neg (by simp)]
    simp [fC5z1, fC5z2]
  · simp

/-! Pipeline inversion: what a successful first run from `initState` implies. -/

theorem calculate_statistics_inv (cfg : Config) (s : Summary) (st : BState)
    (h : calculate_statistics cfg initState = Except.ok (s, st)) :
    ∃ brs mx mn,
      freshBR cfg = Except.ok brs ∧
      pyMax brs = Except.ok mx ∧
      pyMin brs = Except.ok mn ∧
      calc_duration (calc_frame_sizes cfg.info) ≠ 0 ∧
      ((sizeSum (calc_frame_sizes cfg.info) : ℚ) * 8 / 1000)
          / calc_duration (calc_frame_sizes cfg.info) ≠ 0 ∧
      s = mkSummary cfg (calc_frame_sizes cfg.info)
            (calc_duration (calc_frame_sizes cfg.info))
            (((calc_frame_sizes cfg.info).length : ℚ)
              / calc_duration (calc_frame_sizes cfg.info))
            brs mx mn
            (((sizeSum (calc_frame_sizes cfg.info) : ℚ) * 8 / 1000)
              / calc_duration (calc_frame_sizes cfg.info)) ∧
      st = { frames := calc_frame_sizes cfg.info,
             duration := calc_duration (calc_frame_sizes cfg.info),
             fps := ((calc_frame_sizes cfg.info).length : ℚ)
               / calc_duration (calc_frame_sizes cfg.info),
             maxB := mx, minB := mn, chunks := brs, stats := some s } := by
  rw [calculate_statistics] at h
  simp only [initState, List.isEmpty_nil, if_true] at h
  by_cases hdur : calc_duration (calc_frame_sizes cfg.info) = 0
  · rw [if_pos hdur] at h
    simp at h
  · rw [if_neg hdur] at h
    cases hbr : freshBR cfg <;> rw [hbr] at h
    · simp [withChunks] at h
    · rename_i brs
      simp only [withChunks] at h
      cases hmx : pyMax brs <;> rw [hmx] at h
      · simp [withMaxMin] at h
      · rename_i mx
        cases hmn : pyMin brs <;> rw [hmn] at h
        · simp [withMaxMin] at h
        · rename_i mn
          simp only [withMaxMin] at h
          by_cases havg : ((sizeSum (calc_frame_sizes cfg.info) : ℚ) * 8 / 1000)
              / calc_duration (calc_frame_sizes cfg.info) = 0
          · rw [if_pos havg] at h
            simp at h
          · rw [if_neg havg] at h
            simp only [Except.ok.injEq, Prod.mk.injEq] at h
            obtain ⟨hs, hst⟩ := h
            refine ⟨brs, mx, mn, rfl, hmx, hmn, hdur, havg, hs.symm, ?_⟩
            rw [← hst, hs]

/-- C4: a second `calculate_statistics` call on the state produced by a first
successful call returns the identical summary and leaves the state unchanged
(the chunk series is served from the `self._chunks` cache; everything else is
recomputed deterministically from the same input data to the same values). -/
theorem claim_C4 (cfg : Config) (s1 : Summary) (st1 : BState)
    (h : calculate_statistics cfg initState = Except.ok (s1, st1)) :
    calculate_statistics cfg st1 = Except.ok (s1, st1) := by
  obtain ⟨brs, mx, mn, hbr, hmx, hmn, hdur, havg, hs, hst⟩ :=
    calculate_statistics_inv cfg s1 st1 h
  have hbrs_ne : brs ≠ [] := by
    intro hnil
    rw [hnil] at hmx
    simp [pyMax] at hmx
  have hisE : brs.isEmpty = false := by
    cases brs with
    | nil => exact absurd rfl hbrs_ne
    | cons b bs => rfl
  subst hst
  subst hs
  rw [calculate_statistics]
  simp only [hisE, Bool.false_eq_true, if_false]
  rw [if_neg hdur]
  simp only [withChunks, hmx, hmn, withMaxMin]
  rw [if_neg havg]

/-! Concrete successful run, reused by several witnesses. -/

theorem cfgW_run : calculate_statistics cfgW initState = Except.ok (sumW, stateW) := by
  have h1 : pyRound 1 2 = 1 := by simpa using pyRound_intCast 1 2
  have h2 : pyRound 1 3 = 1 := by simpa using pyRound_intCast 1 3
  have h3 : pyRound 8 3 = 8 := by simpa using pyRound_intCast 8 3
  simp [calculate_statistics, withChunks, withMaxMin, calc_frame_sizes,
    default_duration, mkFrames, calc_duration, freshBR, chunksOf, timeGo, mapE,
    bitrate_for_frame_list, pyMax, pyMin, mkSummary, npMean, sumN, sizeSum,
    ltN, addN, initState, cfgW, sumW, stateW, Option.orElse, h1, h2, h3]

/-- C4 witness: on a concrete 1-packet input, the second call reproduces the
first call's result and state. -/
theorem claim_C4_witness :
    calculate_statistics cfgW stateW = Except.ok (sumW, stateW) :=
  claim_C4 cfgW sumW stateW cfgW_run

/-- C3 (amended): the reported duration is the duration sum rounded to 2 (not
3) decimal digits — `_calculate_duration` rounds with `round(..., 2)` and the
final `round(..., 3)` then changes nothing — and the internal average-FPS and
average-bitrate computations use this 2-digit-rounded duration, not the
full-precision sum. -/
theorem claim_C3_amended (cfg : Config) (s : Summary) (st : BState)
    (h : calculate_statistics cfg initState = Except.ok (s, st)) :
    s.duration = pyRound (rawDurationSum cfg.info) 2 ∧
    s.avg_fps = pyRound (((calc_frame_sizes cfg.info).length : ℚ)
        / pyRound (rawDurationSum cfg.info) 2) 3 ∧
    s.avg_bitrate = pyRound (((sizeSum (calc_frame_sizes cfg.info) : ℚ) * 8 / 1000)
        / pyRound (rawDurationSum cfg.info) 2) 3 := by
  obtain ⟨brs, mx, mn, _, _, _, _, _, hs, _⟩ := calculate_statistics_inv cfg s st h
  have hcd : calc_duration (calc_frame_sizes cfg.info)
      = pyRound (rawDurationSum cfg.info) 2 := by
    rw [calc_duration, rawDurationSum, durSum]
  subst hs
  refine ⟨?_, ?_, ?_⟩
  · simp only [mkSummary]
    rw [hcd, pyRound_two_round_three]
  · simp only [mkSummary, hcd]
  · simp only [mkSummary, hcd]

/-- C3 witness: on the concrete 1-packet run the reported duration, FPS and
average bitrate match the 2-digit-rounded-duration formulas. -/
theorem claim_C3_witness :
    sumW.duration = pyRound (rawDurationSum cfgW.info) 2 ∧
    sumW.avg_fps = pyRound (((calc_frame_sizes cfgW.info).length : ℚ)
        / pyRound (rawDurationSum cfgW.info) 2) 3 ∧
    sumW.avg_bitrate = pyRound (((sizeSum (calc_frame_sizes cfgW.info) : ℚ) * 8 / 1000)
        / pyRound (rawDurationSum cfgW.info) 2) 3 :=
  claim_C3_amended cfgW sumW stateW cfgW_run

theorem pyRound_div125_two : pyRound (1 / 125 : ℚ) 2 = 1 / 100 := by
  have hfloor : ⌊(1 / 125 : ℚ) * 10 ^ 2⌋ = 0 := by
    rw [Int.floor_eq_iff]
    norm_num
  rw [pyRound, rhe, hfloor]
  norm_num

theorem pyRound_div125_three : pyRound (1 / 125 : ℚ) 3 = 1 / 125 := by
  have h : ((1 : ℚ) / 125) * 10 ^ 3 = ((8 : ℤ) : ℚ) := by norm_num
  rw [pyRound, h, rhe_intCast]
  norm_num

theorem cfgC3_run : calculate_statistics cfgC3 initState = Except.ok (sumC3, stateC3) := by
  have r2 : pyRound (1 / 100 : ℚ) 3 = 1 / 100 := by
    have h : ((1 : ℚ) / 100) * 10 ^ 3 = ((10 : ℤ) : ℚ) := by norm_num
    rw [pyRound, h, rhe_intCast]
    norm_num
  have r3 : pyRound (100 : ℚ) 3 = 100 := by simpa using pyRound_intCast 100 3
  have r4 : pyRound (800 : ℚ) 3 = 800 := by simpa using pyRound_intCast 800 3
  have p1 : pyRound ((125 : ℚ)⁻¹) 2 = (100 : ℚ)⁻¹ := by
    simpa [one_div] using pyRound_div125_two
  have p2 : pyRound ((100 : ℚ)⁻¹) 3 = (100 : ℚ)⁻¹ := by
    simpa [one_div] using r2
  have h800 : (8 : ℚ) / (100 : ℚ)⁻¹ = 800 := by norm_num
  simp [calculate_statistics, withChunks, withMaxMin, calc_frame_sizes,
    default_duration, mkFrames, calc_duration, freshBR, chunksOf, timeGo, mapE,
    bitrate_for_frame_list, pyMax, pyMin, mkSummary, npMean, sumN, sizeSum, ltN,
    addN, initState, cfgC3, sumC3, stateC3, Option.orElse, p1, p2, r3, r4, h800]

/-- C3 counterexample: one packet of duration 0.008 s. The reported duration
is 0.01 (2-digit rounding applied inside `_calculate_duration`), not the
claimed `round(0.008, 3) = 0.008`. -/
theorem claim_C3_cex :
    (calculate_statistics cfgC3 initState).toOption.map (fun p => p.1.duration)
      = some (1 / 100) ∧
    pyRound (rawDurationSum cfgC3.info) 3 = 1 / 125 ∧
    ((1 : ℚ) / 100) ≠ 1 / 125 := by
  refine ⟨?_, ?_, by norm_num⟩
  · rw [cfgC3_run]
    rfl
  · have hraw : rawDurationSum cfgC3.info = 1 / 125 := by
      simp [rawDurationSum, durSum, calc_frame_sizes, default_duration,
        cfgC3, mkFrames, Option.orElse]
    rw [hraw, pyRound_div125_three]

end BitrateStats
